import Mathlib

/-!
Verification development for the QA persistence engine (src/QA.py).

The SQLite-backed store is shallowly embedded: the two tables `qa_entries`
and `qa_values` become lists of records, and each public operation of
`QASystem` becomes a pure function on this state.  SQL queries are modelled
by the standard relational reading: `JOIN` is a nested-loop product on the
join condition, `WHERE` is `List.filter`, and `ORDER BY` is a stable sort
(`List.insertionSort`) on the ordering key, which refines SQLite's
unspecified tie order deterministically (a stable sort by a total preorder
is unique, so this also models Python's stable `list.sort`).  Timestamps
are omitted: no query reads them and no claim concerns them.
-/

namespace QA

/-- A row of the `qa_entries` table (src/QA.py lines 53-64).  Timestamp
columns are omitted (never read by any query under verification). -/
structure EntryRow where
  entry_id : Nat
  group_identifier : String
  keyword : String
  match_type : String
  status : String
  priority : Int
  deriving DecidableEq, Repr

/-- A row of the `qa_values` table (src/QA.py lines 81-92), timestamps
omitted likewise. -/
structure ValueRow where
  value_id : Nat
  entry_id : Nat
  value_type : String
  value_content : String
  order_num : Int
  deriving DecidableEq, Repr

/-- The database state: the two tables plus the AUTOINCREMENT counters for
the surrogate primary keys. -/
structure DB where
  entries : List EntryRow
  values : List ValueRow
  nextEntryId : Nat
  nextValueId : Nat
  deriving DecidableEq, Repr

/-- CHECK constraint on `qa_entries.match_type` (src/QA.py line 58). -/
def validMatchType (s : String) : Bool :=
  s == "EXACT" || s == "FUZZY" || s == "REGEX"

/-- CHECK constraint on `qa_entries.status` (src/QA.py line 59). -/
def validStatus (s : String) : Bool :=
  s == "ACTIVE" || s == "INACTIVE" || s == "ARCHIVED"

/-- CHECK constraint on `qa_values.value_type` (src/QA.py line 85). -/
def validValueType (s : String) : Bool :=
  s == "TEXT" || s == "IMAGE_URL" || s == "FILE_URL" || s == "MARKDOWN"

/-- One result dictionary `{'type': ..., 'content': ..., 'order': ...}` as
built by `get_qa` (src/QA.py line 216) and `get_qa_by_group` (line 266).
The Python key `type` is spelled `vtype` (`type` is reserved in Lean). -/
structure OutValue where
  vtype : String
  content : String
  order : Int
  deriving DecidableEq, Repr

/-- One element of the `values` argument of `add_qa`: a Python dict in
which each of the keys `type`, `content`, `order` may be absent (`none`).
A present `content` is modelled as a string, as in every caller. -/
structure ValueItem where
  vtype : Option String
  content : Option String
  order : Option Int
  deriving DecidableEq, Repr

/-- Outcome of `add_qa`: `raisedValueError` models the `raise ValueError`
at src/QA.py lines 140/144, `sentinelNone` the `return None` at line 171
after rollback, `entryId` the `return entry_id` at line 167. -/
inductive AddResult where
  | raisedValueError
  | sentinelNone
  | entryId (id : Nat)
  deriving DecidableEq, Repr

/-- The value-insertion loop of `add_qa` (src/QA.py lines 154-162), one
INSERT per item with `type` defaulting to TEXT and `order` defaulting to
the item's position `i`.  A CHECK-constraint violation raises
`sqlite3.Error`; since the surrounding transaction is then rolled back
(line 169), the failing run is modelled as `none` (no rows survive).
`content` is read with a default because `add_qa` only calls this after
validating that every item carries a `content` key. -/
def insertValues (eid : Nat) : Nat → Nat → List ValueItem → Option (List ValueRow)
  | _, _, [] => some []
  | sid, i, item :: rest =>
    let vt := item.vtype.getD "TEXT"
    let oc := item.content.getD ""
    let onum := item.order.getD (Int.ofNat i)
    if validValueType vt then
      match insertValues eid (sid + 1) (i + 1) rest with
      | some rows => some (⟨sid, eid, vt, oc, onum⟩ :: rows)
      | none => none
    else
      none

/-- `QASystem.add_qa` (src/QA.py lines 132-171).  Validation (lines
138-144) raises ValueError before any write; then the entry row is
inserted (CHECK constraints on `match_type`/`status`), then the value rows;
any `sqlite3.Error` rolls the transaction back (line 169) leaving the
database unchanged and returns the sentinel `None` (line 171). -/
def add_qa (db : DB) (group_identifier keyword : String) (values : List ValueItem)
    (match_type : String) (status : String) (priority : Int) : AddResult × DB :=
  if values.isEmpty then
    (AddResult.raisedValueError, db)
  else if values.any (fun v => v.content.isNone) then
    (AddResult.raisedValueError, db)
  else if !(validMatchType match_type && validStatus status) then
    (AddResult.sentinelNone, db)
  else
    match insertValues db.nextEntryId db.nextValueId 0 values with
    | none => (AddResult.sentinelNone, db)
    | some rows =>
      (AddResult.entryId db.nextEntryId,
        ⟨db.entries ++
            [⟨db.nextEntryId, group_identifier, keyword, match_type, status, priority⟩],
          db.values ++ rows,
          db.nextEntryId + 1,
          db.nextValueId + values.length⟩)

/-- The WHERE clause of the `get_qa` query (src/QA.py lines 191-194). -/
def matchesKey (g k : String) (e : EntryRow) : Bool :=
  e.group_identifier == g && e.keyword == k && e.status == "ACTIVE"

/-- The WHERE clause of the `get_qa_by_group` query (src/QA.py lines
244-246). -/
def matchesGroup (g : String) (e : EntryRow) : Bool :=
  e.group_identifier == g && e.status == "ACTIVE"

/-- The rows of `qa_values` joined to one entry by the JOIN condition
`e.entry_id = v.entry_id` (src/QA.py line 190), tagged with the entry. -/
def valueRowsOf (db : DB) (e : EntryRow) : List (EntryRow × ValueRow) :=
  (db.values.filter (fun v => v.entry_id == e.entry_id)).map (fun v => (e, v))

/-- The (unordered) result rows of the `get_qa` query before ORDER BY:
JOIN of the two tables restricted by the WHERE clause. -/
def joinRows (db : DB) (g k : String) : List (EntryRow × ValueRow) :=
  (db.entries.filter (matchesKey g k)).flatMap (valueRowsOf db)

/-- The result rows of the `get_qa_by_group` query before ORDER BY. -/
def joinRowsGroup (db : DB) (g : String) : List (EntryRow × ValueRow) :=
  (db.entries.filter (matchesGroup g)).flatMap (valueRowsOf db)

/-- The ORDER BY key `e.priority DESC, v.order_num ASC` (src/QA.py lines
195-197 and 247-249) as a total preorder: row `a` may precede row `b`
iff `a` has the greater priority, or equal priority and `order_num` not
above `b`'s.  The queries' result order is this key applied by a stable
sort (stable sorting by a total preorder is unique, so any stable sort
models SQLite's ordered scan followed by Python's stable `list.sort`). -/
def rowle (a b : EntryRow × ValueRow) : Prop :=
  b.1.priority < a.1.priority ∨
    (a.1.priority = b.1.priority ∧ a.2.order_num ≤ b.2.order_num)

instance : DecidableRel rowle := fun a b =>
  inferInstanceAs (Decidable (b.1.priority < a.1.priority ∨
    (a.1.priority = b.1.priority ∧ a.2.order_num ≤ b.2.order_num)))

instance : IsTrans (EntryRow × ValueRow) rowle :=
  ⟨fun a b c hab hbc => by
    unfold rowle at hab hbc ⊢
    omega⟩

instance : IsTotal (EntryRow × ValueRow) rowle :=
  ⟨fun a b => by
    unfold rowle
    omega⟩

/-- The comparison key of `final_values.sort(key=lambda x: x['order'])`
(src/QA.py lines 222 and 270). -/
def ovle (a b : OutValue) : Prop :=
  a.order ≤ b.order

instance : DecidableRel ovle := fun a b =>
  inferInstanceAs (Decidable (a.order ≤ b.order))

instance : IsTrans OutValue ovle :=
  ⟨fun a b c hab hbc => by
    unfold ovle at hab hbc ⊢
    omega⟩

instance : IsTotal OutValue ovle :=
  ⟨fun a b => by
    unfold ovle
    omega⟩

/-- Projection of one fetched row to the result dictionary (src/QA.py
line 216 / line 266). -/
def outOf (r : EntryRow × ValueRow) : OutValue :=
  ⟨r.2.value_type, r.2.value_content, r.2.order_num⟩

/-- `QASystem.get_qa` (src/QA.py lines 173-228): run the ordered query;
if no rows, return `[]`; otherwise keep rows while their priority equals
the first row's priority (the loop with `break` at lines 213-219), project
to result dictionaries, and sort them by `order` (line 222). -/
def get_qa (db : DB) (g k : String) : List OutValue :=
  match List.insertionSort rowle (joinRows db g k) with
  | [] => []
  | r0 :: rest =>
    List.insertionSort ovle
      (((r0 :: rest).takeWhile (fun r => r.1.priority == r0.1.priority)).map outOf)

/-- The grouping step of `get_qa_by_group` (src/QA.py lines 260-266): a
Python dict in insertion order is an association list; a new keyword is
appended at the end, a repeated keyword has the value appended to its
list. -/
def insertGrouped (acc : List (String × List OutValue)) (kw : String) (ov : OutValue) :
    List (String × List OutValue) :=
  match acc with
  | [] => [(kw, [ov])]
  | (k, vs) :: rest =>
    if k == kw then (k, vs ++ [ov]) :: rest else (k, vs) :: insertGrouped rest kw ov

/-- The full grouping loop over the fetched rows (src/QA.py lines
260-266). -/
def groupRows (rows : List (EntryRow × ValueRow)) : List (String × List OutValue) :=
  rows.foldl (fun acc r => insertGrouped acc r.1.keyword (outOf r)) []

/-- `QASystem.get_qa_by_group` (src/QA.py lines 230-276): run the ordered
query; return `[]` when it yields no rows (line 256); otherwise group rows
by keyword and sort each keyword's list by `order` (lines 269-270). -/
def get_qa_by_group (db : DB) (g : String) : List (String × List OutValue) :=
  let results := List.insertionSort rowle (joinRowsGroup db g)
  if results.isEmpty then []
  else (groupRows results).map (fun p => (p.1, List.insertionSort ovle p.2))

/-- The `except sqlite3.Error` branch of `get_qa` (src/QA.py lines
226-228): on a storage error during the query the operation returns `[]`,
the very same value as the not-found case. -/
def get_qa_error_result : List OutValue := []

/-- The `except sqlite3.Error` branch of `get_qa_by_group` (src/QA.py
lines 274-276): on a storage error it returns `[]`. -/
def get_qa_by_group_error_result : List (String × List OutValue) := []

/-- Return string of `delete_qa` on success (src/QA.py line 288). -/
def delete_success_msg : String := "删除关键词成功"

/-- Return string of `delete_qa` when no row matched (src/QA.py line
291). -/
def delete_notfound_msg : String := "没有找到要删除的关键词"

/-- Return string of the `except sqlite3.Error` branch of `delete_qa`
(src/QA.py line 295). -/
def delete_failed_msg : String := "删除关键词失败"

/-- `QASystem.delete_qa` (src/QA.py lines 278-295): DELETE every
`qa_entries` row matching (group_identifier, keyword) — any status, any
priority; the ON DELETE CASCADE foreign key (line 90, with
`PRAGMA foreign_keys = ON` at line 36) removes the owned `qa_values` rows
in the same transaction.  `cursor.rowcount` counts the directly deleted
entry rows. -/
def delete_qa (db : DB) (g k : String) : String × DB :=
  let hit := fun (e : EntryRow) => e.group_identifier == g && e.keyword == k
  let deleted := db.entries.filter hit
  let kept := db.entries.filter (fun e => !(hit e))
  let keptValues :=
    db.values.filter (fun v => !(deleted.any (fun e => e.entry_id == v.entry_id)))
  if deleted.length > 0 then
    (delete_success_msg, ⟨kept, keptValues, db.nextEntryId, db.nextValueId⟩)
  else
    (delete_notfound_msg, db)

/-- The connection-holding state of a `QASystem` object: `_conn` and
`_cursor` (src/QA.py lines 10-11), each `None` or present. -/
structure QAState where
  conn : Option DB
  cursor : Option Unit
  deriving DecidableEq

/-- `QASystem.close` (src/QA.py lines 298-307): close the connection if
one is held (skipped when `_conn` is already `None`), then set `_conn` and
`_cursor` to `None`.  The resulting object state is the same either way. -/
def close (s : QAState) : QAState :=
  match s.conn with
  | some _ => ⟨none, none⟩
  | none => ⟨none, none⟩

/-- The ACTIVE entries for one (scope, keyword) pair: the entry rows the
WHERE clause of `get_qa` admits. -/
def activeEntries (db : DB) (g k : String) : List EntryRow :=
  db.entries.filter (matchesKey g k)

/-- The ACTIVE entries for (scope, keyword) tied at the maximum priority:
those whose priority is at least every other matching ACTIVE entry's. -/
def topEntries (db : DB) (g k : String) : List EntryRow :=
  (activeEntries db g k).filter
    (fun e => (activeEntries db g k).all (fun e2 => decide (e2.priority ≤ e.priority)))

/-- The pooled values of all top-priority ACTIVE entries for the key, as
result dictionaries (in table order, before any sorting). -/
def pooledTop (db : DB) (g k : String) : List OutValue :=
  ((topEntries db g k).flatMap (valueRowsOf db)).map outOf

/-- The database with every non-ACTIVE entry removed (value rows are kept;
the JOIN ignores rows whose owning entry is gone). -/
def restrictActive (db : DB) : DB :=
  ⟨db.entries.filter (fun e => e.status == "ACTIVE"), db.values,
    db.nextEntryId, db.nextValueId⟩

/-- Lookup in the association-list reading of a Python dict: the value
list bound to a keyword, `[]` when the keyword is absent. -/
def lookupA (l : List (String × List OutValue)) (kw : String) : List OutValue :=
  match l.find? (fun p => p.1 == kw) with
  | some p => p.2
  | none => []

/-- The expected rows of the value-insertion loop of `add_qa` when every
CHECK constraint holds: ids and default order numbers advance with the
position. -/
def mkRows (eid : Nat) : Nat → Nat → List ValueItem → List ValueRow
  | _, _, [] => []
  | sid, i, item :: rest =>
    ⟨sid, eid, item.vtype.getD "TEXT", item.content.getD "", item.order.getD (Int.ofNat i)⟩ ::
      mkRows eid (sid + 1) (i + 1) rest

/-! Concrete database states used as witnesses and counterexamples. -/

/-- The empty database (fresh store). -/
def dbEmpty : DB := ⟨[], [], 0, 0⟩

/-- Priority-1 ACTIVE entry for ("g", "k"). -/
def entLow : EntryRow := ⟨1, "g", "k", "EXACT", "ACTIVE", 1⟩

/-- Priority-5 ACTIVE entry for ("g", "k"). -/
def entHigh : EntryRow := ⟨2, "g", "k", "EXACT", "ACTIVE", 5⟩

/-- The single value of the priority-1 entry. -/
def valLow : ValueRow := ⟨1, 1, "TEXT", "low", 0⟩

/-- The single value of the priority-5 entry. -/
def valHigh : ValueRow := ⟨2, 2, "TEXT", "high", 0⟩

/-- A database holding two ACTIVE entries for ("g", "k") with priorities
1 and 5, one value each. -/
def dbTwoPrio : DB := ⟨[entLow, entHigh], [valLow, valHigh], 3, 3⟩

/-- A value list whose second item violates the `value_type` CHECK
constraint mid-insert. -/
def badValues : List ValueItem :=
  [⟨some "TEXT", some "a", none⟩, ⟨some "BAD", some "b", none⟩]

/-- A well-formed two-item value list. -/
def goodValues : List ValueItem :=
  [⟨some "TEXT", some "a", none⟩, ⟨some "IMAGE_URL", some "b", none⟩]

end QA

namespace QA

/-! ### Basic lemmas about the ordering keys and the join -/

lemma priority_le_of_rowle {a b : EntryRow × ValueRow} (h : rowle a b) :
    b.1.priority ≤ a.1.priority := by
  unfold rowle at h
  omega

lemma filter_const {α : Type} (b : Bool) (l : List α) :
    l.filter (fun _ => b) = if b then l else [] := by
  cases b <;> simp

lemma flatMap_if_filter {α β : Type} (l : List α) (q : α → Bool) (f : α → List β) :
    (l.flatMap fun e => if q e then f e else []) = (l.filter q).flatMap f := by
  induction l with
  | nil => rfl
  | cons a l ih =>
    by_cases h : q a = true
    · simp [List.filter_cons, h, ih]
    · simp only [Bool.not_eq_true] at h
      simp [List.filter_cons, h, ih]

lemma takeWhile_eq_self_of_all {α : Type} (p : α → Bool) (l : List α)
    (h : ∀ a ∈ l, p a = true) : l.takeWhile p = l := by
  induction l with
  | nil => rfl
  | cons a l ih =>
    rw [List.takeWhile_cons, if_pos (h a (List.mem_cons_self a l))]
    rw [ih fun a ha => h a (List.mem_cons_of_mem _ ha)]

lemma takeWhile_priority_eq_filter (l : List (EntryRow × ValueRow)) (t : Int)
    (hp : List.Pairwise rowle l)
    (hb : ∀ r ∈ l, r.1.priority ≤ t) :
    l.takeWhile (fun r => r.1.priority == t) = l.filter (fun r => r.1.priority == t) := by
  induction l with
  | nil => rfl
  | cons a l ih =>
    rcases List.pairwise_cons.mp hp with ⟨ha, hl⟩
    by_cases h : a.1.priority = t
    · have hbeq : (a.1.priority == t) = true := beq_iff_eq.mpr h
      rw [List.takeWhile_cons, if_pos hbeq,
        ih hl fun r hr => hb r (List.mem_cons_of_mem _ hr),
        List.filter_cons, if_pos hbeq]
    · have hbeq : (a.1.priority == t) = false := beq_eq_false_iff_ne.mpr h
      rw [List.takeWhile_cons, if_neg (by simp [hbeq]), List.filter_cons,
        if_neg (by simp [hbeq])]
      have hlt : a.1.priority < t := lt_of_le_of_ne (hb a (List.mem_cons_self a l)) h
      symm
      rw [List.filter_eq_nil_iff]
      intro r hr
      have hle : r.1.priority ≤ a.1.priority := priority_le_of_rowle (ha r hr)
      simp only [beq_iff_eq]
      omega

lemma mem_valueRowsOf {db : DB} {e : EntryRow} {r : EntryRow × ValueRow}
    (h : r ∈ valueRowsOf db e) : r.1 = e ∧ r.2 ∈ db.values ∧ r.2.entry_id = e.entry_id := by
  unfold valueRowsOf at h
  rcases List.mem_map.mp h with ⟨v, hv, rfl⟩
  rcases List.mem_filter.mp hv with ⟨hv1, hv2⟩
  exact ⟨rfl, hv1, beq_iff_eq.mp hv2⟩

lemma joinRows_filter_keyword (db : DB) (g kw : String) :
    (joinRowsGroup db g).filter (fun r => r.1.keyword == kw) = joinRows db g kw := by
  unfold joinRowsGroup joinRows
  rw [List.filter_flatMap]
  have h1 : ∀ e : EntryRow,
      (valueRowsOf db e).filter (fun r => r.1.keyword == kw) =
        if e.keyword == kw then valueRowsOf db e else [] := by
    intro e
    unfold valueRowsOf
    rw [List.filter_map]
    have : ((fun r : EntryRow × ValueRow => r.1.keyword == kw) ∘ fun v => (e, v)) =
        fun _ => e.keyword == kw := rfl
    rw [this, filter_const]
    by_cases h : (e.keyword == kw) = true
    · rw [if_pos h, if_pos h]
    · simp only [Bool.not_eq_true] at h
      rw [if_neg (by simp [h]), if_neg (by simp [h])]
      rfl
  calc ((db.entries.filter (matchesGroup g)).flatMap fun e =>
          (valueRowsOf db e).filter (fun r => r.1.keyword == kw))
      = ((db.entries.filter (matchesGroup g)).flatMap fun e =>
          if e.keyword == kw then valueRowsOf db e else []) := by
        exact congrArg _ (funext h1)
    _ = ((db.entries.filter (matchesGroup g)).filter
          (fun e => e.keyword == kw)).flatMap (valueRowsOf db) := by
        rw [flatMap_if_filter]
    _ = (db.entries.filter (matchesKey g kw)).flatMap (valueRowsOf db) := by
        rw [List.filter_filter]
        refine congrArg₂ _ (List.filter_congr ?_) rfl
        intro e _
        unfold matchesKey matchesGroup
        cases h1 : e.group_identifier == g <;> cases h2 : e.keyword == kw <;>
          cases h3 : e.status == "ACTIVE" <;> rfl

lemma get_qa_eq_nil_of_no_rows {db : DB} {g k : String}
    (h : joinRows db g k = []) : get_qa db g k = [] := by
  unfold get_qa
  rw [h]
  rfl

lemma joinRows_eq_nil_of_no_entry {db : DB} {g k : String}
    (h : db.entries.filter (matchesKey g k) = []) : joinRows db g k = [] := by
  unfold joinRows
  rw [h]
  rfl

end QA

namespace QA

/-! ### Auxiliary lemmas for delete and add -/

lemma filter_matchesKey_nil_of_filter_pair_nil {l : List EntryRow} {g k : String}
    (h : l.filter (fun e => e.group_identifier == g && e.keyword == k) = []) :
    l.filter (matchesKey g k) = [] := by
  rw [List.filter_eq_nil_iff] at h ⊢
  intro e he hm
  apply h e he
  unfold matchesKey at hm
  simp only [Bool.and_eq_true] at hm
  simp [hm.1.1, hm.1.2]

lemma delete_qa_no_match {db : DB} {g k : String}
    (h : db.entries.filter (fun e => e.group_identifier == g && e.keyword == k) = []) :
    delete_qa db g k = (delete_notfound_msg, db) := by
  simp only [delete_qa, h]
  rfl

lemma delete_qa_entries_filter (db : DB) (g k : String) :
    (delete_qa db g k).2.entries.filter
      (fun e => e.group_identifier == g && e.keyword == k) = [] := by
  simp only [delete_qa]
  split
  case isTrue h =>
    show (db.entries.filter fun e =>
        !(e.group_identifier == g && e.keyword == k)).filter
        (fun e => e.group_identifier == g && e.keyword == k) = []
    rw [List.filter_filter, List.filter_eq_nil_iff]
    intro e _
    cases e.group_identifier == g && e.keyword == k <;> simp
  case isFalse h =>
    have h0 : (db.entries.filter
        fun e => e.group_identifier == g && e.keyword == k).length = 0 := by omega
    exact List.length_eq_zero.mp h0

lemma insertValues_length : ∀ (items : List ValueItem) (eid sid i : Nat)
    (rows : List ValueRow), insertValues eid sid i items = some rows →
    rows.length = items.length := by
  intro items
  induction items with
  | nil =>
    intro eid sid i rows h
    simp only [insertValues] at h
    injection h with h
    rw [← h]
    rfl
  | cons a l ih =>
    intro eid sid i rows h
    simp only [insertValues] at h
    by_cases hvt : validValueType (a.vtype.getD "TEXT") = true
    · rw [if_pos hvt] at h
      cases hrec : insertValues eid (sid + 1) (i + 1) l with
      | none => rw [hrec] at h; cases h
      | some rs =>
        rw [hrec] at h
        injection h with h
        rw [← h, List.length_cons, List.length_cons, ih _ _ _ _ hrec]
    · rw [if_neg hvt] at h
      cases h

/-! ### Claim theorems: C10, C7, C6, C8, C4, C5 -/

/-- C10: `close()` is idempotent — after a first call, a further call is a
no-op on the already-closed state — and any call leaves both the
connection handle and the cursor `None`, i.e. the repository is not usable
afterwards. -/
theorem close_idempotent_unusable (s : QAState) :
    close (close s) = close s ∧ (close s).conn = none ∧ (close s).cursor = none := by
  cases s with
  | mk c cur => cases c <;> exact ⟨rfl, rfl, rfl⟩

/-- C7: an entry whose status is not ACTIVE contributes nothing to `get_qa`
or `get_qa_by_group`: both results are unchanged when every non-ACTIVE
entry is deleted from the database, whatever its priority was. -/
theorem status_filtering_invariance (db : DB) (g k : String) :
    get_qa db g k = get_qa (restrictActive db) g k ∧
    get_qa_by_group db g = get_qa_by_group (restrictActive db) g := by
  have hjk : joinRows (restrictActive db) g k = joinRows db g k := by
    unfold joinRows
    have h1 : (restrictActive db).entries.filter (matchesKey g k) =
        db.entries.filter (matchesKey g k) := by
      show (db.entries.filter fun e => e.status == "ACTIVE").filter (matchesKey g k) =
        db.entries.filter (matchesKey g k)
      rw [List.filter_filter]
      refine List.filter_congr ?_
      intro e _
      simp [matchesKey, Bool.and_assoc]
    rw [h1]
    rfl
  have hjg : joinRowsGroup (restrictActive db) g = joinRowsGroup db g := by
    unfold joinRowsGroup
    have h1 : (restrictActive db).entries.filter (matchesGroup g) =
        db.entries.filter (matchesGroup g) := by
      show (db.entries.filter fun e => e.status == "ACTIVE").filter (matchesGroup g) =
        db.entries.filter (matchesGroup g)
      rw [List.filter_filter]
      refine List.filter_congr ?_
      intro e _
      simp [matchesGroup, Bool.and_assoc]
    rw [h1]
    rfl
  constructor
  · unfold get_qa
    rw [hjk]
  · unfold get_qa_by_group
    rw [hjg]

/-- C6: `delete_qa` removes every entry matching (scope, keyword) whatever
its status or priority, together with all of their values; a subsequent
`get_qa` returns the empty list; a second `delete_qa` reports the
not-found message, which differs from the persistence-failure message. -/
theorem delete_qa_cascade_correct (db : DB) (g k : String) :
    ((delete_qa db g k).2.entries.filter
        (fun e => e.group_identifier == g && e.keyword == k) = []) ∧
    (∀ v ∈ (delete_qa db g k).2.values, ∀ e ∈ db.entries,
        (e.group_identifier == g && e.keyword == k) = true → v.entry_id ≠ e.entry_id) ∧
    get_qa (delete_qa db g k).2 g k = [] ∧
    (delete_qa (delete_qa db g k).2 g k).1 = delete_notfound_msg ∧
    delete_notfound_msg ≠ delete_failed_msg := by
  refine ⟨delete_qa_entries_filter db g k, ?_, ?_, ?_, by decide⟩
  · simp only [delete_qa]
    split
    case isTrue hcase =>
      intro v hv e he hmatch
      have hvmem := List.mem_filter.mp hv
      have hany := hvmem.2
      simp only [Bool.not_eq_eq_eq_not, Bool.not_true, List.any_eq_false] at hany
      have hedel : e ∈ db.entries.filter
          (fun e => e.group_identifier == g && e.keyword == k) :=
        List.mem_filter.mpr ⟨he, hmatch⟩
      intro heq
      exact absurd (beq_iff_eq.mpr heq.symm) (by simpa using hany e hedel)
    case isFalse hcase =>
      intro v hv e he hmatch
      have h0 : db.entries.filter
          (fun e => e.group_identifier == g && e.keyword == k) = [] :=
        List.length_eq_zero.mp (by omega)
      exact absurd hmatch (List.filter_eq_nil_iff.mp h0 e he)
  · exact get_qa_eq_nil_of_no_rows (joinRows_eq_nil_of_no_entry
      (filter_matchesKey_nil_of_filter_pair_nil (delete_qa_entries_filter db g k)))
  · exact congrArg Prod.fst (delete_qa_no_match (delete_qa_entries_filter db g k))

/-- C8 counterexample: on the empty store, the not-found result of both
read operations is exactly the value their `except sqlite3.Error` branch
returns, so a caller cannot tell the two outcomes apart from the returned
value. -/
theorem reads_error_indistinguishable :
    get_qa dbEmpty "g" "k" = get_qa_error_result ∧
    get_qa_by_group dbEmpty "g" = get_qa_by_group_error_result :=
  ⟨rfl, rfl⟩

/-- C8 amended: for both read operations the not-found case yields an
empty result, and a persistence failure during the query yields the very
same empty value — the two outcomes are not distinguishable from the
returned value alone. -/
theorem reads_empty_on_not_found (db : DB) (g k : String) :
    (db.entries.filter (matchesKey g k) = [] → get_qa db g k = get_qa_error_result) ∧
    (db.entries.filter (matchesGroup g) = [] →
      get_qa_by_group db g = get_qa_by_group_error_result) := by
  constructor
  · intro h
    exact get_qa_eq_nil_of_no_rows (joinRows_eq_nil_of_no_entry h)
  · intro h
    unfold get_qa_by_group joinRowsGroup
    rw [h]
    rfl

/-- Witness for the amended C8 theorem at the empty store. -/
theorem reads_empty_on_not_found_witness :
    get_qa dbEmpty "g" "k" = get_qa_error_result ∧
    get_qa_by_group dbEmpty "g" = get_qa_by_group_error_result :=
  ⟨(reads_empty_on_not_found dbEmpty "g" "k").1 rfl,
    (reads_empty_on_not_found dbEmpty "g" "k").2 rfl⟩

/-- C4 counterexample: an item whose `content` is the empty string is NOT
rejected — `add_qa` returns a fresh entry id and persists a value row with
empty `value_content` (the validation at src/QA.py line 142 only checks
that the key `content` is present). -/
theorem add_qa_accepts_empty_content :
    (add_qa dbEmpty "g" "k" [⟨none, some "", none⟩] "EXACT" "ACTIVE" 0).1 =
      AddResult.entryId 0 ∧
    (add_qa dbEmpty "g" "k" [⟨none, some "", none⟩] "EXACT" "ACTIVE" 0).2.values =
      [⟨0, 0, "TEXT", "", 0⟩] := by
  exact ⟨rfl, rfl⟩

/-- C4 amended: `add_qa` rejects, before performing any write, a `values`
argument that is empty or contains an item lacking a `content` key, and
reports this by raising ValueError — a failure mode distinct from the
sentinel returned on persistence failure.  (An item whose content is
present but empty is accepted.) -/
theorem add_qa_validation (db : DB) (g k : String) (values : List ValueItem)
    (mt st : String) (pr : Int)
    (h : values = [] ∨ ∃ v ∈ values, v.content = none) :
    add_qa db g k values mt st pr = (AddResult.raisedValueError, db) ∧
    AddResult.raisedValueError ≠ AddResult.sentinelNone := by
  refine ⟨?_, by decide⟩
  rcases h with rfl | ⟨v, hv, hc⟩
  · rfl
  · have h1 : values.isEmpty = false := by
      cases values with
      | nil => cases hv
      | cons a l => rfl
    have h2 : values.any (fun v => v.content.isNone) = true :=
      List.any_eq_true.mpr ⟨v, hv, by rw [hc]; rfl⟩
    simp [add_qa, h1, h2]

/-- Witness for the amended C4 theorem: the empty value list is rejected
with ValueError and the store is untouched. -/
theorem add_qa_validation_witness :
    add_qa dbEmpty "g" "k" [] "EXACT" "ACTIVE" 0 = (AddResult.raisedValueError, dbEmpty) ∧
    AddResult.raisedValueError ≠ AddResult.sentinelNone :=
  add_qa_validation dbEmpty "g" "k" [] "EXACT" "ACTIVE" 0 (Or.inl rfl)

/-- C5: on any persistence failure during `add_qa` the transaction is
rolled back — the database is returned unchanged, zero rows of the
attempted entry remain — and the failure is reported by the sentinel
result, not an exception; on success exactly one entry row and one value
row per input item are inserted. -/
theorem add_qa_atomicity (db : DB) (g k : String) (values : List ValueItem)
    (mt st : String) (pr : Int) :
    ((add_qa db g k values mt st pr).1 = AddResult.sentinelNone →
        (add_qa db g k values mt st pr).2 = db) ∧
    (∀ id, (add_qa db g k values mt st pr).1 = AddResult.entryId id →
        (add_qa db g k values mt st pr).2.entries.length = db.entries.length + 1 ∧
        (add_qa db g k values mt st pr).2.values.length =
          db.values.length + values.length) := by
  cases h1 : values.isEmpty
  · cases h2 : values.any (fun v => v.content.isNone)
    · cases h3 : validMatchType mt && validStatus st
      · simp [add_qa, h1, h2, h3]
      · cases hins : insertValues db.nextEntryId db.nextValueId 0 values with
        | none => simp [add_qa, h1, h2, h3, hins]
        | some rows =>
          have hlen := insertValues_length values _ _ _ rows hins
          simp [add_qa, h1, h2, h3, hins, hlen]
    · simp [add_qa, h1, h2]
  · simp [add_qa, h1]

/-- Witness for C5: a CHECK violation on the second value row (type BAD)
rolls the whole insert back on the empty store, and a valid two-value
insert lands one entry row and two value rows. -/
theorem add_qa_atomicity_witness :
    (add_qa dbEmpty "g" "k" badValues "EXACT" "ACTIVE" 0).2 = dbEmpty ∧
    (add_qa dbEmpty "g" "k" goodValues "EXACT" "ACTIVE" 0).2.entries.length = 1 ∧
    (add_qa dbEmpty "g" "k" goodValues "EXACT" "ACTIVE" 0).2.values.length = 2 := by
  refine ⟨(add_qa_atomicity dbEmpty "g" "k" badValues "EXACT" "ACTIVE" 0).1 (by decide),
    ?_, ?_⟩
  · exact ((add_qa_atomicity dbEmpty "g" "k" goodValues "EXACT" "ACTIVE" 0).2 0
      (by decide)).1
  · exact ((add_qa_atomicity dbEmpty "g" "k" goodValues "EXACT" "ACTIVE" 0).2 0
      (by decide)).2

end QA

namespace QA

/-! ### C1: priority resolution of `get_qa` -/

lemma filter_priority_factor (db : DB) (g k : String) (t : Int) :
    (joinRows db g k).filter (fun r => r.1.priority == t) =
      ((activeEntries db g k).filter (fun e => e.priority == t)).flatMap
        (valueRowsOf db) := by
  unfold joinRows
  rw [List.filter_flatMap]
  have h1 : ∀ e : EntryRow,
      (valueRowsOf db e).filter (fun r => r.1.priority == t) =
        if e.priority == t then valueRowsOf db e else [] := by
    intro e
    unfold valueRowsOf
    rw [List.filter_map]
    have h2 : ((fun r : EntryRow × ValueRow => r.1.priority == t) ∘ fun v => (e, v)) =
        fun _ => e.priority == t := rfl
    rw [h2, filter_const]
    by_cases h : (e.priority == t) = true
    · rw [if_pos h, if_pos h]
    · simp only [Bool.not_eq_true] at h
      rw [if_neg (by simp [h]), if_neg (by simp [h])]
      rfl
  calc ((db.entries.filter (matchesKey g k)).flatMap fun e =>
          (valueRowsOf db e).filter (fun r => r.1.priority == t))
      = ((db.entries.filter (matchesKey g k)).flatMap fun e =>
          if e.priority == t then valueRowsOf db e else []) :=
        congrArg _ (funext h1)
    _ = ((db.entries.filter (matchesKey g k)).filter
          (fun e => e.priority == t)).flatMap (valueRowsOf db) := flatMap_if_filter _ _ _

lemma mem_joinRows_of_value {db : DB} {g k : String} {e : EntryRow} {v : ValueRow}
    (he : e ∈ activeEntries db g k)
    (hvv : v ∈ db.values.filter (fun v => v.entry_id == e.entry_id)) :
    (e, v) ∈ joinRows db g k :=
  List.mem_flatMap.mpr ⟨e, he, List.mem_map.mpr ⟨v, hvv, rfl⟩⟩

/-- C1: `get_qa` considers exactly the ACTIVE entries for (scope, keyword):
when none exists it returns the empty list rather than an error; otherwise
its result is precisely the values of every entry tied at the maximum
priority pooled together (so any strictly lower-priority entry's values
are excluded), sorted by `order_num` ascending.  The hypothesis is the
data-model invariant that every stored entry owns at least one value
(`add_qa` refuses an empty value list). -/
theorem get_qa_priority_resolution (db : DB) (g k : String)
    (hv : ∀ e ∈ activeEntries db g k,
      db.values.filter (fun v => v.entry_id == e.entry_id) ≠ []) :
    (activeEntries db g k = [] → get_qa db g k = []) ∧
    (activeEntries db g k ≠ [] →
      (get_qa db g k).Perm (pooledTop db g k) ∧
      List.Sorted ovle (get_qa db g k)) := by
  constructor
  · intro hA
    refine get_qa_eq_nil_of_no_rows ?_
    unfold joinRows
    unfold activeEntries at hA
    rw [hA]
    rfl
  · intro hA
    have hrows_ne : joinRows db g k ≠ [] := by
      intro hnil
      rcases List.exists_mem_of_ne_nil _ hA with ⟨e0, he0⟩
      have h0 : valueRowsOf db e0 = [] :=
        List.flatMap_eq_nil_iff.mp hnil e0 he0
      unfold valueRowsOf at h0
      exact hv e0 he0 (List.map_eq_nil_iff.mp h0)
    have hperm0 : (List.insertionSort rowle (joinRows db g k)).Perm (joinRows db g k) :=
      List.perm_insertionSort rowle _
    have hsorted0 : List.Sorted rowle (List.insertionSort rowle (joinRows db g k)) :=
      List.sorted_insertionSort rowle _
    cases hs : List.insertionSort rowle (joinRows db g k) with
    | nil =>
      rw [hs] at hperm0
      exact absurd hperm0.nil_eq.symm hrows_ne
    | cons r0 rest =>
      rw [hs] at hperm0 hsorted0
      have hbound : ∀ r ∈ r0 :: rest, r.1.priority ≤ r0.1.priority := by
        intro r hr
        rcases List.mem_cons.mp hr with rfl | hr
        · exact le_refl _
        · exact priority_le_of_rowle ((List.sorted_cons.mp hsorted0).1 r hr)
      have hboundrows : ∀ r ∈ joinRows db g k, r.1.priority ≤ r0.1.priority := fun r hr =>
        hbound r (hperm0.mem_iff.mpr hr)
      have hup : ∀ e ∈ activeEntries db g k, e.priority ≤ r0.1.priority := by
        intro e he
        rcases List.exists_mem_of_ne_nil _ (hv e he) with ⟨v, hvv⟩
        exact hboundrows (e, v) (mem_joinRows_of_value he hvv)
      have hr0mem : r0 ∈ joinRows db g k := hperm0.mem_iff.mp (List.mem_cons_self r0 rest)
      have hr0A : r0.1 ∈ activeEntries db g k := by
        rcases List.mem_flatMap.mp hr0mem with ⟨e, he, hrv⟩
        rcases mem_valueRowsOf hrv with ⟨h1, _, _⟩
        rw [h1]
        exact he
      have hfiltA : (activeEntries db g k).filter
          (fun e => e.priority == r0.1.priority) = topEntries db g k := by
        unfold topEntries
        refine List.filter_congr ?_
        intro e he
        by_cases h : e.priority = r0.1.priority
        · have h1 : (e.priority == r0.1.priority) = true := beq_iff_eq.mpr h
          have h2 : (activeEntries db g k).all
              (fun e2 => decide (e2.priority ≤ e.priority)) = true := by
            rw [List.all_eq_true]
            intro e2 he2
            rw [decide_eq_true_eq]
            exact le_trans (hup e2 he2) (le_of_eq h.symm)
          rw [h1, h2]
        · have h1 : (e.priority == r0.1.priority) = false := beq_eq_false_iff_ne.mpr h
          have h2 : (activeEntries db g k).all
              (fun e2 => decide (e2.priority ≤ e.priority)) = false := by
            rw [List.all_eq_false]
            refine ⟨r0.1, hr0A, ?_⟩
            rw [decide_eq_true_eq]
            have he' := hup e he
            omega
          rw [h1, h2]
      have htake : (r0 :: rest).takeWhile (fun r => r.1.priority == r0.1.priority) =
          (r0 :: rest).filter (fun r => r.1.priority == r0.1.priority) :=
        takeWhile_priority_eq_filter _ _ hsorted0 hbound
      have hget : get_qa db g k = List.insertionSort ovle
          (((r0 :: rest).takeWhile (fun r => r.1.priority == r0.1.priority)).map outOf) := by
        unfold get_qa
        rw [hs]
      constructor
      · rw [hget, htake]
        have p1 : (List.insertionSort ovle
            (((r0 :: rest).filter (fun r => r.1.priority == r0.1.priority)).map outOf)).Perm
            (((r0 :: rest).filter (fun r => r.1.priority == r0.1.priority)).map outOf) :=
          List.perm_insertionSort ovle _
        have p2 : (((r0 :: rest).filter (fun r => r.1.priority == r0.1.priority)).map outOf).Perm
            (((joinRows db g k).filter (fun r => r.1.priority == r0.1.priority)).map outOf) :=
          (hperm0.filter _).map outOf
        have p3 : ((joinRows db g k).filter (fun r => r.1.priority == r0.1.priority)).map outOf =
            pooledTop db g k := by
          rw [filter_priority_factor db g k r0.1.priority, hfiltA]
          rfl
        exact (p1.trans p2).trans (List.Perm.of_eq p3)
      · rw [hget]
        exact List.sorted_insertionSort ovle _

/-- Witness for C1 on a store with two ACTIVE entries of priorities 1 and
5 for the same key. -/
theorem get_qa_priority_resolution_witness :
    (get_qa dbTwoPrio "g" "k").Perm (pooledTop dbTwoPrio "g" "k") ∧
    List.Sorted ovle (get_qa dbTwoPrio "g" "k") :=
  (get_qa_priority_resolution dbTwoPrio "g" "k" (by decide)).2 (by decide)

end QA

namespace QA

/-! ### C2 and C9: the grouped bulk read `get_qa_by_group` -/

lemma lookupA_nil (kw : String) : lookupA [] kw = [] := rfl

lemma lookupA_cons (k : String) (vs : List OutValue)
    (rest : List (String × List OutValue)) (kw2 : String) :
    lookupA ((k, vs) :: rest) kw2 = if k = kw2 then vs else lookupA rest kw2 := by
  by_cases h : k = kw2
  · have hb : (k == kw2) = true := beq_iff_eq.mpr h
    simp [lookupA, List.find?_cons, hb, h]
  · have hb : (k == kw2) = false := beq_eq_false_iff_ne.mpr h
    simp [lookupA, List.find?_cons, hb, h]

lemma lookupA_insertGrouped : ∀ (acc : List (String × List OutValue)) (kw : String)
    (ov : OutValue) (kw2 : String),
    lookupA (insertGrouped acc kw ov) kw2 =
      if kw2 = kw then lookupA acc kw2 ++ [ov] else lookupA acc kw2 := by
  intro acc
  induction acc with
  | nil =>
    intro kw ov kw2
    show lookupA [(kw, [ov])] kw2 = _
    rw [lookupA_cons]
    by_cases h : kw2 = kw
    · rw [if_pos h.symm, if_pos h, lookupA_nil]
      rfl
    · rw [if_neg (fun hh => h hh.symm), if_neg h]
  | cons p rest ih =>
    intro kw ov kw2
    obtain ⟨k, vs⟩ := p
    by_cases hk : k = kw
    · have h1 : insertGrouped ((k, vs) :: rest) kw ov = (k, vs ++ [ov]) :: rest := by
        simp [insertGrouped, beq_iff_eq.mpr hk]
      rw [h1, lookupA_cons, lookupA_cons]
      by_cases h2 : k = kw2
      · rw [if_pos h2, if_pos h2, if_pos (by rw [← h2, hk])]
      · rw [if_neg h2, if_neg h2, if_neg (fun hh => h2 (by rw [hk, ← hh]))]
    · have h1 : insertGrouped ((k, vs) :: rest) kw ov =
          (k, vs) :: insertGrouped rest kw ov := by
        simp [insertGrouped, beq_eq_false_iff_ne.mpr hk]
      rw [h1, lookupA_cons, lookupA_cons]
      by_cases h2 : k = kw2
      · rw [if_pos h2, if_pos h2, if_neg (fun hh => hk (by rw [h2, hh]))]
      · rw [if_neg h2, if_neg h2, ih kw ov kw2]

lemma lookupA_groupFold : ∀ (rows : List (EntryRow × ValueRow))
    (acc : List (String × List OutValue)) (kw : String),
    lookupA (rows.foldl (fun acc r => insertGrouped acc r.1.keyword (outOf r)) acc) kw =
      lookupA acc kw ++ (rows.filter (fun r => r.1.keyword == kw)).map outOf := by
  intro rows
  induction rows with
  | nil =>
    intro acc kw
    simp
  | cons r rows ih =>
    intro acc kw
    rw [List.foldl_cons, ih, lookupA_insertGrouped]
    by_cases h : kw = r.1.keyword
    · rw [if_pos h, List.filter_cons, if_pos (beq_iff_eq.mpr h.symm)]
      simp
    · rw [if_neg h, List.filter_cons,
        if_neg (by simp [beq_eq_false_iff_ne.mpr (fun hh => h hh.symm)])]

lemma lookupA_groupRows (rows : List (EntryRow × ValueRow)) (kw : String) :
    lookupA (groupRows rows) kw = (rows.filter (fun r => r.1.keyword == kw)).map outOf := by
  unfold groupRows
  rw [lookupA_groupFold]
  rfl

lemma lookupA_map_sort (l : List (String × List OutValue)) (kw : String) :
    lookupA (l.map (fun p => (p.1, List.insertionSort ovle p.2))) kw =
      List.insertionSort ovle (lookupA l kw) := by
  induction l with
  | nil => rfl
  | cons q rest ih =>
    obtain ⟨k, vs⟩ := q
    rw [List.map_cons, lookupA_cons, lookupA_cons]
    by_cases h : k = kw
    · rw [if_pos h, if_pos h]
    · rw [if_neg h, if_neg h, ih]

/-- C2 counterexample: with two ACTIVE entries for ("g", "k") at
priorities 5 ("high") and 1 ("low"), `get_qa_by_group` returns BOTH
values for "k", although "low" is not among the pooled values of the
entries tied at the maximum priority — the bulk read does not apply the
priority rule of `get_qa`. -/
theorem list_scope_ignores_priority :
    get_qa_by_group dbTwoPrio "g" =
      [("k", [⟨"TEXT", "high", 0⟩, ⟨"TEXT", "low", 0⟩])] ∧
    (⟨"TEXT", "low", 0⟩ : OutValue) ∉ pooledTop dbTwoPrio "g" "k" := by
  decide

/-- C2 amended: `get_qa_by_group` maps each keyword of the scope to the
values of ALL its ACTIVE entries pooled together regardless of priority
(no priority selection is applied, unlike `get_qa`), sorted by `order_num`
ascending; a keyword with no ACTIVE value rows is bound to nothing. -/
theorem list_scope_pools_all_priorities (db : DB) (g kw : String) :
    (lookupA (get_qa_by_group db g) kw).Perm ((joinRows db g kw).map outOf) ∧
    List.Sorted ovle (lookupA (get_qa_by_group db g) kw) := by
  cases hres : List.insertionSort rowle (joinRowsGroup db g) with
  | nil =>
    have hjg : joinRowsGroup db g = [] := by
      have hp := List.perm_insertionSort rowle (joinRowsGroup db g)
      rw [hres] at hp
      exact hp.nil_eq.symm
    have hjr : joinRows db g kw = [] := by
      rw [← joinRows_filter_keyword, hjg]
      rfl
    have hg : get_qa_by_group db g = [] := by
      simp [get_qa_by_group, hres]
    rw [hg, hjr, lookupA_nil]
    exact ⟨List.Perm.refl _, List.sorted_nil⟩
  | cons r0 rest =>
    have hg : get_qa_by_group db g =
        (groupRows (r0 :: rest)).map (fun p => (p.1, List.insertionSort ovle p.2)) := by
      simp [get_qa_by_group, hres]
    rw [hg, lookupA_map_sort, lookupA_groupRows]
    constructor
    · have p1 : (List.insertionSort ovle
          (((r0 :: rest).filter (fun r => r.1.keyword == kw)).map outOf)).Perm
          (((r0 :: rest).filter (fun r => r.1.keyword == kw)).map outOf) :=
        List.perm_insertionSort ovle _
      have p2 : (((r0 :: rest).filter (fun r => r.1.keyword == kw)).map outOf).Perm
          (((joinRowsGroup db g).filter (fun r => r.1.keyword == kw)).map outOf) := by
        refine List.Perm.map outOf (List.Perm.filter _ ?_)
        have hp := List.perm_insertionSort rowle (joinRowsGroup db g)
        rw [hres] at hp
        exact hp
      have p3 : ((joinRowsGroup db g).filter (fun r => r.1.keyword == kw)).map outOf =
          (joinRows db g kw).map outOf := by
        rw [joinRows_filter_keyword]
      exact (p1.trans p2).trans (List.Perm.of_eq p3)
    · exact List.sorted_insertionSort ovle _

lemma insertGrouped_snd_ne_nil (acc : List (String × List OutValue)) (kw : String)
    (ov : OutValue) (hacc : ∀ p ∈ acc, p.2 ≠ []) :
    ∀ p ∈ insertGrouped acc kw ov, p.2 ≠ [] := by
  induction acc with
  | nil =>
    intro p hp
    rcases List.mem_singleton.mp hp with rfl
    simp
  | cons q rest ih =>
    obtain ⟨k, vs⟩ := q
    by_cases hk : k = kw
    · have h1 : insertGrouped ((k, vs) :: rest) kw ov = (k, vs ++ [ov]) :: rest := by
        simp [insertGrouped, beq_iff_eq.mpr hk]
      rw [h1]
      intro p hp
      rcases List.mem_cons.mp hp with rfl | hp
      · simp
      · exact hacc p (List.mem_cons_of_mem _ hp)
    · have h1 : insertGrouped ((k, vs) :: rest) kw ov =
          (k, vs) :: insertGrouped rest kw ov := by
        simp [insertGrouped, beq_eq_false_iff_ne.mpr hk]
      rw [h1]
      intro p hp
      rcases List.mem_cons.mp hp with rfl | hp
      · exact hacc (k, vs) (List.mem_cons_self _ _)
      · exact ih (fun q hq => hacc q (List.mem_cons_of_mem _ hq)) p hp

lemma groupFold_snd_ne_nil : ∀ (rows : List (EntryRow × ValueRow))
    (acc : List (String × List OutValue)), (∀ p ∈ acc, p.2 ≠ []) →
    ∀ p ∈ rows.foldl (fun acc r => insertGrouped acc r.1.keyword (outOf r)) acc,
      p.2 ≠ [] := by
  intro rows
  induction rows with
  | nil => intro acc hacc p hp; exact hacc p hp
  | cons r rows ih =>
    intro acc hacc p hp
    rw [List.foldl_cons] at hp
    exact ih _ (insertGrouped_snd_ne_nil acc r.1.keyword (outOf r) hacc) p hp

lemma groupRows_snd_ne_nil (rows : List (EntryRow × ValueRow)) :
    ∀ p ∈ groupRows rows, p.2 ≠ [] :=
  groupFold_snd_ne_nil rows [] (fun p hp => absurd hp (List.not_mem_nil p))

/-- C9: `get_qa_by_group` of a scope with no ACTIVE entry is the empty
mapping (not a failure); every keyword present in the mapping carries a
non-empty value list; and a keyword with no ACTIVE entry in the scope is
absent from the mapping. -/
theorem list_scope_absence (db : DB) (g kw : String) :
    (db.entries.filter (matchesGroup g) = [] → get_qa_by_group db g = []) ∧
    (∀ p ∈ get_qa_by_group db g, p.2 ≠ []) ∧
    (db.entries.filter (matchesKey g kw) = [] →
      kw ∉ (get_qa_by_group db g).map Prod.fst) := by
  refine ⟨?_, ?_, ?_⟩
  · intro h
    have hjg : joinRowsGroup db g = [] := by
      unfold joinRowsGroup
      rw [h]
      rfl
    simp [get_qa_by_group, hjg]
  · intro p hp
    cases hres : List.insertionSort rowle (joinRowsGroup db g) with
    | nil =>
      rw [show get_qa_by_group db g = [] by simp [get_qa_by_group, hres]] at hp
      exact absurd hp (List.not_mem_nil p)
    | cons r0 rest =>
      rw [show get_qa_by_group db g =
          (groupRows (r0 :: rest)).map (fun p => (p.1, List.insertionSort ovle p.2))
          from by simp [get_qa_by_group, hres]] at hp
      rcases List.mem_map.mp hp with ⟨q, hq, rfl⟩
      have hne := groupRows_snd_ne_nil (r0 :: rest) q hq
      intro hnil
      apply hne
      have hnil2 : List.insertionSort ovle q.2 = [] := hnil
      have hp2 := List.perm_insertionSort ovle q.2
      rw [hnil2] at hp2
      exact hp2.nil_eq.symm
  · intro h hmem
    have hjr : joinRows db g kw = [] := joinRows_eq_nil_of_no_entry h
    cases hres : List.insertionSort rowle (joinRowsGroup db g) with
    | nil =>
      rw [show get_qa_by_group db g = [] by simp [get_qa_by_group, hres]] at hmem
      exact absurd hmem (List.not_mem_nil kw)
    | cons r0 rest =>
      rw [show get_qa_by_group db g =
          (groupRows (r0 :: rest)).map (fun p => (p.1, List.insertionSort ovle p.2))
          from by simp [get_qa_by_group, hres]] at hmem
      rw [List.map_map] at hmem
      have hmem2 : kw ∈ (groupRows (r0 :: rest)).map Prod.fst := hmem
      rcases List.mem_map.mp hmem2 with ⟨q, hq, hfst⟩
      have hne := groupRows_snd_ne_nil (r0 :: rest) q hq
      apply hne
      have hfind : lookupA (groupRows (r0 :: rest)) kw = q.2 ∨
          ∃ q2, q2 ∈ groupRows (r0 :: rest) ∧ lookupA (groupRows (r0 :: rest)) kw = q2.2 := by
        right
        cases hf : (groupRows (r0 :: rest)).find? (fun p => p.1 == kw) with
        | none =>
          exact absurd (beq_iff_eq.mpr hfst) (List.find?_eq_none.mp hf q hq)
        | some q2 =>
          refine ⟨q2, List.mem_of_find?_eq_some hf, ?_⟩
          unfold lookupA
          rw [hf]
      have hempty : lookupA (groupRows (r0 :: rest)) kw = [] := by
        rw [lookupA_groupRows]
        have hfp : ((r0 :: rest).filter (fun r => r.1.keyword == kw)).Perm
            ((joinRowsGroup db g).filter (fun r => r.1.keyword == kw)) := by
          refine List.Perm.filter _ ?_
          have hp := List.perm_insertionSort rowle (joinRowsGroup db g)
          rw [hres] at hp
          exact hp
        rw [joinRows_filter_keyword, hjr] at hfp
        rw [List.perm_nil.mp hfp]
        rfl
      rcases hfind with hfind | ⟨q2, hq2, hfind⟩
      · rw [← hfind, hempty]
      · -- the found pair has empty snd, contradicting groupRows_snd_ne_nil
        have := groupRows_snd_ne_nil (r0 :: rest) q2 hq2
        rw [hfind] at hempty
        exact absurd hempty this

/-- Witness for C9 at the empty store. -/
theorem list_scope_absence_witness :
    get_qa_by_group dbEmpty "g" = [] ∧
    "k" ∉ (get_qa_by_group dbEmpty "g").map Prod.fst :=
  ⟨(list_scope_absence dbEmpty "g" "k").1 rfl,
    (list_scope_absence dbEmpty "g" "k").2.2 rfl⟩

end QA

namespace QA

/-! ### C3: add followed by get is order-preserving -/

lemma insertValues_eq_mkRows : ∀ (items : List ValueItem) (eid sid i : Nat),
    (∀ it ∈ items, validValueType (it.vtype.getD "TEXT") = true) →
    insertValues eid sid i items = some (mkRows eid sid i items) := by
  intro items
  induction items with
  | nil => intro eid sid i _; rfl
  | cons a l ih =>
    intro eid sid i h
    simp only [insertValues, mkRows]
    rw [if_pos (h a (List.mem_cons_self a l)),
      ih eid (sid + 1) (i + 1) (fun it hit => h it (List.mem_cons_of_mem _ hit))]

lemma mkRows_entry_id : ∀ (items : List ValueItem) (eid sid i : Nat) (v : ValueRow),
    v ∈ mkRows eid sid i items → v.entry_id = eid := by
  intro items
  induction items with
  | nil => intro eid sid i v hv; exact absurd hv (List.not_mem_nil v)
  | cons a l ih =>
    intro eid sid i v hv
    rcases List.mem_cons.mp hv with rfl | hv
    · rfl
    · exact ih eid (sid + 1) (i + 1) v hv

lemma mkRows_order_mem : ∀ (items : List ValueItem) (eid sid i : Nat) (v : ValueRow),
    (∀ it ∈ items, it.order = none) → v ∈ mkRows eid sid i items →
    ∃ j : Nat, i ≤ j ∧ v.order_num = Int.ofNat j := by
  intro items
  induction items with
  | nil => intro eid sid i v _ hv; exact absurd hv (List.not_mem_nil v)
  | cons a l ih =>
    intro eid sid i v ho hv
    rcases List.mem_cons.mp hv with rfl | hv
    · refine ⟨i, le_refl i, ?_⟩
      show (a.order.getD (Int.ofNat i)) = Int.ofNat i
      rw [ho a (List.mem_cons_self a l)]
      rfl
    · rcases ih eid (sid + 1) (i + 1) v
        (fun it hit => ho it (List.mem_cons_of_mem _ hit)) hv with ⟨j, hj, hje⟩
      exact ⟨j, by omega, hje⟩

lemma mkRows_pairwise : ∀ (items : List ValueItem) (eid sid i : Nat),
    (∀ it ∈ items, it.order = none) →
    List.Pairwise (fun a b : ValueRow => a.order_num < b.order_num)
      (mkRows eid sid i items) := by
  intro items
  induction items with
  | nil => intro eid sid i _; exact List.Pairwise.nil
  | cons a l ih =>
    intro eid sid i ho
    refine List.pairwise_cons.mpr ⟨?_, ih eid (sid + 1) (i + 1)
      (fun it hit => ho it (List.mem_cons_of_mem _ hit))⟩
    intro v hv
    rcases mkRows_order_mem l eid (sid + 1) (i + 1) v
      (fun it hit => ho it (List.mem_cons_of_mem _ hit)) hv with ⟨j, hj, hje⟩
    show (a.order.getD (Int.ofNat i)) < v.order_num
    rw [ho a (List.mem_cons_self a l), hje]
    exact Int.ofNat_lt.mpr (by omega)

lemma mkRows_out : ∀ (items : List ValueItem) (eid sid i : Nat),
    (∀ it ∈ items, it.order = none) →
    (mkRows eid sid i items).map
        (fun v => (⟨v.value_type, v.value_content, v.order_num⟩ : OutValue)) =
      (items.enumFrom i).map
        (fun p => (⟨p.2.vtype.getD "TEXT", p.2.content.getD "", Int.ofNat p.1⟩ : OutValue)) := by
  intro items
  induction items with
  | nil => intro eid sid i _; rfl
  | cons a l ih =>
    intro eid sid i ho
    show (⟨a.vtype.getD "TEXT", a.content.getD "", a.order.getD (Int.ofNat i)⟩ : OutValue) ::
        (mkRows eid (sid + 1) (i + 1) l).map
          (fun v => (⟨v.value_type, v.value_content, v.order_num⟩ : OutValue)) =
      (⟨a.vtype.getD "TEXT", a.content.getD "", Int.ofNat i⟩ : OutValue) ::
        (l.enumFrom (i + 1)).map
          (fun p => (⟨p.2.vtype.getD "TEXT", p.2.content.getD "", Int.ofNat p.1⟩ : OutValue))
    rw [ho a (List.mem_cons_self a l),
      ih eid (sid + 1) (i + 1) (fun it hit => ho it (List.mem_cons_of_mem _ hit))]
    rfl

lemma get_qa_fresh_entry (db : DB) (g k : String) (E : EntryRow) (R : List ValueRow)
    (n1 n2 : Nat)
    (hkey : db.entries.filter (matchesKey g k) = [])
    (hE : matchesKey g k E = true)
    (hfreshV : db.values.filter (fun v => v.entry_id == E.entry_id) = [])
    (hR : ∀ v ∈ R, v.entry_id = E.entry_id)
    (hpw : List.Pairwise (fun a b : ValueRow => a.order_num < b.order_num) R) :
    get_qa (⟨db.entries ++ [E], db.values ++ R, n1, n2⟩ : DB) g k =
      R.map (fun v => (⟨v.value_type, v.value_content, v.order_num⟩ : OutValue)) := by
  have hjoin : joinRows (⟨db.entries ++ [E], db.values ++ R, n1, n2⟩ : DB) g k =
      R.map (fun v => (E, v)) := by
    unfold joinRows
    show ((db.entries ++ [E]).filter (matchesKey g k)).flatMap
        (valueRowsOf (⟨db.entries ++ [E], db.values ++ R, n1, n2⟩ : DB)) = _
    rw [List.filter_append, hkey, List.nil_append]
    have h1 : [E].filter (matchesKey g k) = [E] := by
      rw [List.filter_cons, if_pos hE]
      rfl
    rw [h1]
    have h2 : List.flatMap [E]
        (valueRowsOf (⟨db.entries ++ [E], db.values ++ R, n1, n2⟩ : DB)) =
        valueRowsOf (⟨db.entries ++ [E], db.values ++ R, n1, n2⟩ : DB) E := by
      simp
    rw [h2]
    unfold valueRowsOf
    show ((db.values ++ R).filter (fun v => v.entry_id == E.entry_id)).map
        (fun v => (E, v)) = _
    rw [List.filter_append, hfreshV, List.nil_append,
      List.filter_eq_self.mpr (fun v hv => by rw [hR v hv]; exact beq_self_eq_true _)]
  have hpwrow : List.Pairwise rowle (R.map (fun v => (E, v))) := by
    rw [List.pairwise_map]
    exact hpw.imp (fun hab => Or.inr ⟨rfl, le_of_lt hab⟩)
  have hsorted : List.insertionSort rowle
      (joinRows (⟨db.entries ++ [E], db.values ++ R, n1, n2⟩ : DB) g k) =
      R.map (fun v => (E, v)) := by
    rw [hjoin]
    exact List.Sorted.insertionSort_eq hpwrow
  cases R with
  | nil =>
    unfold get_qa
    rw [hsorted]
    rfl
  | cons v0 vs =>
    rw [List.map_cons] at hsorted
    unfold get_qa
    rw [hsorted]
    show List.insertionSort ovle
        ((((E, v0) :: vs.map (fun v => (E, v))).takeWhile
          (fun r => r.1.priority == (E, v0).1.priority)).map outOf) =
      (v0 :: vs).map (fun v => (⟨v.value_type, v.value_content, v.order_num⟩ : OutValue))
    have htw : ((E, v0) :: vs.map (fun v => (E, v))).takeWhile
        (fun r => r.1.priority == (E, v0).1.priority) =
        (E, v0) :: vs.map (fun v => (E, v)) := by
      refine takeWhile_eq_self_of_all _ _ ?_
      intro r hr
      rcases List.mem_cons.mp hr with rfl | hr
      · exact beq_self_eq_true _
      · rcases List.mem_map.mp hr with ⟨v, _, rfl⟩
        exact beq_self_eq_true _
    rw [htw]
    have hmap : (((E, v0) :: vs.map (fun v => (E, v))).map outOf) =
        (v0 :: vs).map (fun v => (⟨v.value_type, v.value_content, v.order_num⟩ : OutValue)) := by
      rw [List.map_cons, List.map_cons, List.map_map]
      rfl
    rw [hmap]
    refine List.Sorted.insertionSort_eq ?_
    exact List.pairwise_map.mpr (hpw.imp (fun hab => le_of_lt hab))

/-- C3: a valid `add_qa` whose items carry no explicit order assigns each
value `order_num` equal to its position in the input list, and a
subsequent `get_qa` (no other entry existing for the key) returns exactly
the items' type and content, in input position order.  The hypotheses are
the key's absence, the AUTOINCREMENT freshness of the new entry id, and
validity of the items. -/
theorem add_get_roundtrip (db : DB) (g k : String) (values : List ValueItem)
    (hkey : db.entries.filter (fun e => e.group_identifier == g && e.keyword == k) = [])
    (hfresh : ∀ v ∈ db.values, v.entry_id ≠ db.nextEntryId)
    (hne : values ≠ [])
    (hvalid : ∀ it ∈ values, it.content.isSome = true ∧ it.order = none ∧
      validValueType (it.vtype.getD "TEXT") = true) :
    (add_qa db g k values "EXACT" "ACTIVE" 0).1 = AddResult.entryId db.nextEntryId ∧
    get_qa (add_qa db g k values "EXACT" "ACTIVE" 0).2 g k =
      values.enum.map (fun p =>
        (⟨p.2.vtype.getD "TEXT", p.2.content.getD "", Int.ofNat p.1⟩ : OutValue)) := by
  have h1 : values.isEmpty = false := by
    cases values with
    | nil => exact absurd rfl hne
    | cons a l => rfl
  have h2 : values.any (fun v => v.content.isNone) = false := by
    rw [List.any_eq_false]
    intro v hv hno
    rcases Option.isSome_iff_exists.mp (hvalid v hv).1 with ⟨c, hc⟩
    rw [hc] at hno
    cases hno
  have hins := insertValues_eq_mkRows values db.nextEntryId db.nextValueId 0
    (fun it hit => (hvalid it hit).2.2)
  have hadd : add_qa db g k values "EXACT" "ACTIVE" 0 =
      (AddResult.entryId db.nextEntryId,
        (⟨db.entries ++ [⟨db.nextEntryId, g, k, "EXACT", "ACTIVE", 0⟩],
          db.values ++ mkRows db.nextEntryId db.nextValueId 0 values,
          db.nextEntryId + 1,
          db.nextValueId + values.length⟩ : DB)) := by
    simp [add_qa, validMatchType, validStatus, h1, h2, hins]
  constructor
  · rw [hadd]
  · rw [hadd]
    show get_qa (⟨db.entries ++ [⟨db.nextEntryId, g, k, "EXACT", "ACTIVE", 0⟩],
        db.values ++ mkRows db.nextEntryId db.nextValueId 0 values,
        db.nextEntryId + 1, db.nextValueId + values.length⟩ : DB) g k = _
    rw [get_qa_fresh_entry db g k ⟨db.nextEntryId, g, k, "EXACT", "ACTIVE", 0⟩
      (mkRows db.nextEntryId db.nextValueId 0 values) (db.nextEntryId + 1)
      (db.nextValueId + values.length)
      (filter_matchesKey_nil_of_filter_pair_nil hkey)
      (by simp [matchesKey])
      (List.filter_eq_nil_iff.mpr (fun v hv => by simpa using hfresh v hv))
      (fun v hv => mkRows_entry_id values db.nextEntryId db.nextValueId 0 v hv)
      (mkRows_pairwise values db.nextEntryId db.nextValueId 0
        (fun it hit => (hvalid it hit).2.1))]
    rw [mkRows_out values db.nextEntryId db.nextValueId 0
      (fun it hit => (hvalid it hit).2.1)]
    rfl

/-- Witness for C3: adding two order-less values to the empty store and
reading them back. -/
theorem add_get_roundtrip_witness :
    (add_qa dbEmpty "g" "k" goodValues "EXACT" "ACTIVE" 0).1 =
      AddResult.entryId dbEmpty.nextEntryId ∧
    get_qa (add_qa dbEmpty "g" "k" goodValues "EXACT" "ACTIVE" 0).2 "g" "k" =
      goodValues.enum.map (fun p =>
        (⟨p.2.vtype.getD "TEXT", p.2.content.getD "", Int.ofNat p.1⟩ : OutValue)) :=
  add_get_roundtrip dbEmpty "g" "k" goodValues (by decide) (by decide) (by decide)
    (by decide)

end QA

namespace QA

/-- Witness for C6 on the two-entry store: the delete clears the key, the
following read is empty, and the second delete reports not-found, a
message different from the failure message. -/
theorem delete_qa_cascade_correct_witness :
    (delete_qa dbTwoPrio "g" "k").2.entries.filter
      (fun e => e.group_identifier == "g" && e.keyword == "k") = [] ∧
    get_qa (delete_qa dbTwoPrio "g" "k").2 "g" "k" = [] ∧
    (delete_qa (delete_qa dbTwoPrio "g" "k").2 "g" "k").1 = delete_notfound_msg ∧
    delete_notfound_msg ≠ delete_failed_msg :=
  ⟨(delete_qa_cascade_correct dbTwoPrio "g" "k").1,
    (delete_qa_cascade_correct dbTwoPrio "g" "k").2.2.1,
    (delete_qa_cascade_correct dbTwoPrio "g" "k").2.2.2.1,
    (delete_qa_cascade_correct dbTwoPrio "g" "k").2.2.2.2⟩

end QA
